import Mathlib

/-!
Verification development for the Faunus MC engine core: a shallow embedding of
the reactive speciation move (src/speciation.cpp) and of the sanity-check,
virtual-volume and Widom-insertion analyses (src/analysis.cpp), together with
theorems settling the frozen claims about them.

Machine reals (`double`) are embedded as `ℚ`; geometry kernels, bond-energy
kernels and the random number generator are not part of the core sources and
are passed in as explicit oracle parameters.  Group/Space bookkeeping helpers
whose source files are not in the repository snapshot are modelled from the
specification and marked as such in their doc comments.
-/

namespace Faunus

/-- A 3-vector of rational coordinates, embedding Faunus `Point`. -/
structure Point where
  x : ℚ := 0
  y : ℚ := 0
  z : ℚ := 0
deriving DecidableEq, Repr

def Point.add (a b : Point) : Point := ⟨a.x + b.x, a.y + b.y, a.z + b.z⟩

def Point.sub (a b : Point) : Point := ⟨a.x - b.x, a.y - b.y, a.z - b.z⟩

def Point.neg (a : Point) : Point := ⟨-a.x, -a.y, -a.z⟩

/-- A particle carries an atom type id and a position (charge and shape
attributes are not needed by any claim and are omitted from the embedding). -/
structure Particle where
  id : ℕ := 0
  pos : Point := {}
deriving DecidableEq, Repr

/-- Modelled from the spec: a group is a window over the flat particle array
with a molecule id, a fixed capacity, an active `size` (0 ≤ size ≤ capacity),
an atomic flag and a stored mass center.  `first` is the index of the group's
first slot in the particle array (the iterator `begin()` of the source). -/
structure Group where
  molid : ℕ := 0
  first : ℕ := 0
  capacity : ℕ := 0
  size : ℕ := 0
  atomic : Bool := false
  cm : Point := {}
deriving DecidableEq, Repr

/-- Modelled from the spec: the Space owns the particle vector `p`, the group
vector and the geometry's volume.  Geometry functions are oracle parameters. -/
structure Space where
  p : List Particle := []
  groups : List Group := []
  volume : ℚ := 0
deriving DecidableEq, Repr

/-- Modelled from the spec: the activity filter of `findMolecules`
(`Tspace::ACTIVE` means size > 0, `INACTIVE` means size == 0, `ALL` anything). -/
inductive Selection where
  | ACTIVE
  | INACTIVE
  | ALL
deriving DecidableEq, Repr

def Selection.keeps : Selection → Group → Bool
  | .ACTIVE, g => decide (0 < g.size)
  | .INACTIVE, g => decide (g.size = 0)
  | .ALL, _ => true

/-- Modelled from the spec: lazy sequence of the groups with a given molecule
id passing the activity filter, returned as (group index, group) pairs.  The
laziness of the C++ ranges view is reflected by re-evaluating this function
whenever the source re-reads the view. -/
def Space.findMolecules (spc : Space) (molid : ℕ) (sel : Selection) : List (ℕ × Group) :=
  spc.groups.enum.filter fun ig => ig.2.molid == molid && sel.keeps ig.2

/-- Indices of the active slots of the Space, in group order then slot order. -/
def Space.activeIndices (spc : Space) : List ℕ :=
  (spc.groups.map fun g => (List.range g.size).map fun j => g.first + j).flatten

/-- Modelled from the spec: lazy sequence of the active particles with a given
atom id, returned as absolute indices into the particle array. -/
def Space.findAtoms (spc : Space) (atomid : ℕ) : List ℕ :=
  spc.activeIndices.filter fun i =>
    match spc.p.get? i with
    | some q => q.id == atomid
    | none => false

/-- Modelled from the spec: index of the group whose active window contains
the given particle index (pointer-arithmetic range check in the source). -/
def Space.findGroupContaining (spc : Space) (i : ℕ) : Option ℕ :=
  (spc.groups.enum.find? fun ig => ig.2.first ≤ i && i < ig.2.first + ig.2.size).map Prod.fst

/-- Replace the group at index `gi` by `f` of it (mutation of `*git`). -/
def Space.modifyGroup (spc : Space) (gi : ℕ) (f : Group → Group) : Space :=
  match spc.groups.get? gi with
  | some g => { spc with groups := spc.groups.set gi (f g) }
  | none => spc

/-- Modelled from the spec: `activate` / `deactivate` / `resize` only change
the active `size` of a group; inactive slots stay allocated. -/
def Space.setGroupSize (spc : Space) (gi : ℕ) (n : ℕ) : Space :=
  spc.modifyGroup gi fun g => { g with size := n }

def Space.setGroupCm (spc : Space) (gi : ℕ) (c : Point) : Space :=
  spc.modifyGroup gi fun g => { g with cm := c }

/-- Overwrite the position of the particle at absolute index `i`. -/
def Space.setParticlePos (spc : Space) (i : ℕ) (pt : Point) : Space :=
  match spc.p.get? i with
  | some q => { spc with p := spc.p.set i { q with pos := pt } }
  | none => spc

/-- `std::iter_swap` on two absolute indices of a particle list. -/
def listSwap (l : List Particle) (i j : ℕ) : List Particle :=
  match l.get? i, l.get? j with
  | some a, some b => (l.set i b).set j a
  | _, _ => l

/-- Apply `f` to the particles with absolute index in `[first, first+count)`
(iteration over a group's active window in the source). -/
def mapRange (l : List Particle) (first count : ℕ) (f : Particle → Particle) : List Particle :=
  l.enum.map fun iq => if first ≤ iq.1 ∧ iq.1 < first + count then f iq.2 else iq.2

/-- Modelled from the spec: `Group::translate` shifts the mass center and all
active particles by `d`, wrapping each through the boundary function. -/
def Space.translateGroup (boundary : Point → Point) (spc : Space) (gi : ℕ) (d : Point) : Space :=
  match spc.groups.get? gi with
  | some g =>
      { spc with
        p := mapRange spc.p g.first g.size fun q => { q with pos := boundary (q.pos.add d) },
        groups := spc.groups.set gi { g with cm := boundary (g.cm.add d) } }
  | none => spc

/-- Modelled from the spec: `Group::rotate` rotates the active particles about
the mass center by the random rotation `rho`, wrapping through the boundary. -/
def Space.rotateGroup (boundary : Point → Point) (spc : Space) (gi : ℕ)
    (rho : Point → Point) : Space :=
  match spc.groups.get? gi with
  | some g =>
      { spc with
        p := mapRange spc.p g.first g.size fun q =>
          { q with pos := boundary (g.cm.add (rho (q.pos.sub g.cm))) } }
  | none => spc

/-- One per-group entry of the change descriptor (`Change::data`). -/
structure ChangeData where
  index : ℕ := 0
  all : Bool := false
  internal : Bool := false
  dNatomic : Bool := false
  dNswap : Bool := false
  atoms : List ℕ := []
deriving DecidableEq, Repr, Inhabited

/-- The change descriptor emitted by a move. -/
structure Change where
  dV : Bool := false
  all : Bool := false
  dN : Bool := false
  groups : List ChangeData := []
deriving DecidableEq, Repr, Inhabited

/-- Modelled from the spec: `Change::empty()` is true if nothing changed. -/
def Change.isEmpty (c : Change) : Bool :=
  !c.dV && !c.all && !c.dN && c.groups.isEmpty

/-- The ordering `Change::data::operator<` sorts per-group entries by group
index; `std::sort(change.groups...)` is embedded as an insertion sort by it. -/
def cdLE (a b : ChangeData) : Prop := a.index ≤ b.index

instance : DecidableRel cdLE := fun a b => Nat.decLe a.index b.index

instance : IsTotal ChangeData cdLE := ⟨fun a b => Nat.le_total a.index b.index⟩

instance : IsTrans ChangeData cdLE := ⟨fun _ _ _ => Nat.le_trans⟩

def sortGroups (l : List ChangeData) : List ChangeData := List.insertionSort cdLE l

/-- The slice of the process-wide molecule table that the speciation move
reads: `molecules[id].atomic` (and the bond list, which enters only through
the bond-energy oracle). -/
structure MoleculeData where
  atomic : Bool := false
deriving DecidableEq, Repr, Inhabited

/-- One entry of the process-wide reaction table: reactant/product molecule
and atom multisets as (id, multiplicity) lists, `lnK`, the canonic and swap
flags and the canonic reservoir counter. -/
structure ReactionData where
  name : String := ""
  lnK : ℚ := 0
  canonic : Bool := false
  swap : Bool := false
  N_reservoir : ℤ := 0
  reagid_m : List (ℕ × ℕ) := []
  prodid_m : List (ℕ × ℕ) := []
  reagid_a : List (ℕ × ℕ) := []
  prodid_a : List (ℕ × ℕ) := []
deriving DecidableEq, Repr, Inhabited

/-- Modelled from the spec: molecules appearing on the side of the reaction
that direction `b` adds (products when `b`, reactants otherwise). -/
def ReactionData.Molecules2Add (r : ReactionData) (b : Bool) : List (ℕ × ℕ) :=
  if b then r.prodid_m else r.reagid_m

/-- Modelled from the spec: same for the explicit atoms of a swap reaction. -/
def ReactionData.Atoms2Add (r : ReactionData) (b : Bool) : List (ℕ × ℕ) :=
  if b then r.prodid_a else r.reagid_a

/-- Modelled from the spec: `ReactionData::empty(forward)` — the canonic
reservoir is exhausted in the forward (consuming) direction. -/
def ReactionData.exhausted (r : ReactionData) (forward : Bool) : Bool :=
  forward && r.canonic && decide (r.N_reservoir ≤ 0)

/-- The random draws consumed by one speciation move attempt, one oracle
stream per draw site (`slump` in the source). -/
structure Rnd where
  reactionPick : ℕ := 0
  coin : Bool := false
  swapPick : ℕ := 0
  delAtomPicks : List ℕ := []
  delMolPicks : List ℕ := []
  addMolPicks : List ℕ := []
  addPositions : List Point := []
  molRots : List (Point → Point) := []

/-- The uniformly sampled reaction `rit` (`slump.sample` over the list). -/
def sampledReaction (reactions : List ReactionData) (k : ℕ) : ReactionData :=
  reactions.getD (k % reactions.length) default

/-- Deletion feasibility check for one remove-set species (speciation.cpp
lines 27-40): atomic species need one single group with enough active atoms,
molecular species need enough active groups.  `.ok false` is the silent
"slip out the back door", `.error` the bad-definition throw. -/
def deleteCheck (molecules : ℕ → MoleculeData) (spc : Space) (m : ℕ × ℕ) :
    Except String Bool :=
  let mollist := spc.findMolecules m.1 .ALL
  if (molecules m.1).atomic then
    match mollist with
    | [ig] => .ok (decide (m.2 ≤ ig.2.size))
    | _ => .error "Bad definition: One group per atomic molecule!"
  else
    .ok (decide (m.2 ≤ (spc.findMolecules m.1 .ACTIVE).length))

/-- Addition feasibility check for one add-set species (speciation.cpp lines
41-56): atomic species need capacity headroom in their single group,
molecular species need enough inactive groups. -/
def addCheck (molecules : ℕ → MoleculeData) (spc : Space) (m : ℕ × ℕ) :
    Except String Bool :=
  let mollist := spc.findMolecules m.1 .ALL
  if (molecules m.1).atomic then
    match mollist with
    | [ig] => .ok (decide (ig.2.size + m.2 ≤ ig.2.capacity))
    | _ => .error "Bad definition: One group per atomic molecule!"
  else
    .ok (decide (m.2 ≤ (spc.findMolecules m.1 .INACTIVE).length))

/-- Run a feasibility check over a species list with the early exits of the
source: the first throw propagates, the first infeasible species yields
`.ok false`. -/
def runChecks (check : ℕ × ℕ → Except String Bool) : List (ℕ × ℕ) → Except String Bool
  | [] => .ok true
  | m :: rest =>
    match check m with
    | .error e => .error e
    | .ok true => runChecks check rest
    | .ok false => .ok false

/-- The absolute index of the active atom of species `aid` picked by
`slump.sample(atomlist.begin(), atomlist.end())` when the oracle draw is `k`. -/
def pickedAtom (spc : Space) (aid k : ℕ) : ℕ :=
  (spc.findAtoms aid).getD (k % (spc.findAtoms aid).length) 0

/-- Swap sub-case of the speciation move (speciation.cpp lines 58-78): pick a
random active atom of the outgoing species, replace it with the incoming
species' template particle keeping its position, and record it in the change.
`Except` carries the assert on the atom-list shapes and the
`findGroupContaining` failure; `.ok none` is the slip-out when no active atom
of the outgoing species exists; when the reaction is not a swap the space and
the entry list pass through untouched. -/
def swapPhase (tpl : ℕ → Particle) (r : ReactionData) (fwd : Bool) (rnd : Rnd)
    (spc : Space) : Except String (Option (Space × List ChangeData)) :=
  if !r.swap then .ok (some (spc, []))
  else
    match r.Atoms2Add (!fwd), r.Atoms2Add fwd with
    | [m1], [m2] =>
      if (spc.findAtoms m1.1).length < 1 then .ok none
      else
        match spc.findGroupContaining (pickedAtom spc m1.1 rnd.swapPick) with
        | none => .error "cannot find group containing particle"
        | some gi =>
          match spc.groups.get? gi with
          | none => .error "cannot find group containing particle"
          | some g =>
            .ok (some ({ spc with p := (spc.p.set (pickedAtom spc m1.1 rnd.swapPick)
                ({ tpl m2.1 with pos := (spc.p.getD (pickedAtom spc m1.1 rnd.swapPick) (tpl m2.1)).pos })) },
              [{ index := gi, internal := true, dNswap := true,
                 atoms := [pickedAtom spc m1.1 rnd.swapPick - g.first] }]))
    | _, _ => .error "Bad definition: Only 2 explicit atoms per reaction!"

/-- One iteration of the atomic deletion loop (speciation.cpp lines 94-105).
`gi`/`ogi` are the indices of the species' single group in the trial and peer
Space, `N` the number of deletions already done for this species, `pick` the
oracle draw.  With `s` the current active size and `j = pick % s` the picked
slot, the picked atom is swapped to the last active slot — and the same swap
is mirrored in the peer Space through the peer group's unshrunk end — only
when `distance(ait, nait) > 1`; the last-slot relative index `s-1` is
recorded and the size shrinks by one. -/
def atomicDeleteStep (gi ogi N pick : ℕ) (spc other : Space) : Space × Space × ℕ :=
  match spc.groups.get? gi, other.groups.get? ogi with
  | some g, some og =>
    let s := g.size
    let j := pick % s
    let dist := s - j
    let spc1 := if 1 < (s - 1) - j then
        { spc with p := listSwap spc.p (g.first + j) (g.first + (s - 1)) } else spc
    let op := listSwap other.p ((og.first + og.size) - (dist + N)) ((og.first + og.size) - (1 + N))
    let other1 := if 1 < (s - 1) - j then { other with p := op } else other
    (spc1.setGroupSize gi (s - 1), other1, s - 1)
  | _, _ => (spc, other, 0)

/-- Result bundle of the atomic deletion loop. -/
structure AtomDelRes where
  spc : Space
  other : Space
  recorded : List ℕ
  picks : List ℕ
deriving Repr

/-- The atomic deletion loop: `mult` iterations of `atomicDeleteStep`, with
the iteration counter `N` and the recorded relative indices accumulated in
source order. -/
def atomicDeleteGo (gi ogi : ℕ) : ℕ → ℕ → List ℕ → List ℕ → Space → Space → AtomDelRes
  | 0, _, picks, acc, spc, other => ⟨spc, other, acc, picks⟩
  | m + 1, N, picks, acc, spc, other =>
    let r := atomicDeleteStep gi ogi N (picks.headD 0) spc other
    atomicDeleteGo gi ogi m (N + 1) picks.tail (acc ++ [r.2.2]) r.1 r.2.1

/-- Result bundle of the molecular deletion loop. -/
structure MolDelRes where
  spc : Space
  bond : ℚ
  entries : List ChangeData
  picks : List ℕ
deriving Repr

/-- Molecular deletion loop (speciation.cpp lines 109-126): each iteration
re-reads the lazy ACTIVE view, samples a group, accumulates its intramolecular
bond energy through the oracle `intra`, deactivates it (size 0) and records a
whole-group change entry listing all `capacity` relative indices. -/
def molDeleteGo (intra : Space → ℕ → ℚ) (molid : ℕ) :
    ℕ → List ℕ → Space → ℚ → MolDelRes
  | 0, picks, spc, bond => ⟨spc, bond, [], picks⟩
  | n + 1, picks, spc, bond =>
    match spc.findMolecules molid .ACTIVE with
    | [] => ⟨spc, bond, [], picks⟩
    | x :: xs =>
      let ig := (x :: xs).getD (picks.headD 0 % (x :: xs).length) x
      let bond1 := bond + intra spc ig.1
      let spc1 := spc.setGroupSize ig.1 0
      let d : ChangeData :=
        { index := ig.1, all := true, internal := true, atoms := List.range ig.2.capacity }
      let r := molDeleteGo intra molid n picks.tail spc1 bond1
      ⟨r.spc, r.bond, d :: r.entries, r.picks⟩

/-- Result bundle of the whole deletion phase. -/
structure DelRes where
  spc : Space
  other : Space
  entries : List ChangeData
  bond : ℚ
  atomPicks : List ℕ
  molPicks : List ℕ
deriving Repr

/-- Deletion phase (speciation.cpp lines 83-128): process the remove-set
species in declaration order; atomic species run the atomic deletion loop on
their single group (mirrored in the peer Space) and record one entry with the
relative indices sorted ascending; molecular species run the molecular
deletion loop. -/
def deleteMolecules (molecules : ℕ → MoleculeData) (intra : Space → ℕ → ℚ) :
    List (ℕ × ℕ) → Space → Space → List ℕ → List ℕ → ℚ → DelRes
  | [], spc, other, ap, mp, bond => ⟨spc, other, [], bond, ap, mp⟩
  | m :: rest, spc, other, ap, mp, bond =>
    if (molecules m.1).atomic then
      match spc.findMolecules m.1 .ALL, other.findMolecules m.1 .ALL with
      | ig :: _, og :: _ =>
        let r := atomicDeleteGo ig.1 og.1 m.2 0 ap [] spc other
        let d : ChangeData :=
          { index := ig.1, internal := true, dNatomic := true,
            atoms := List.insertionSort (· ≤ ·) r.recorded }
        let rr := deleteMolecules molecules intra rest r.spc r.other r.picks mp bond
        ⟨rr.spc, rr.other, d :: rr.entries, rr.bond, rr.atomPicks, rr.molPicks⟩
      | _, _ => deleteMolecules molecules intra rest spc other ap mp bond
    else
      let r := molDeleteGo intra m.1 m.2 mp spc bond
      let rr := deleteMolecules molecules intra rest r.spc other ap r.picks r.bond
      ⟨rr.spc, rr.other, r.entries ++ rr.entries, rr.bond, rr.atomPicks, rr.molPicks⟩

/-- Result bundle of the atomic insertion loop. -/
structure AtomAddRes where
  spc : Space
  recorded : List ℕ
  positions : List Point
deriving Repr

/-- Atomic insertion loop (speciation.cpp lines 138-144): activate one slot at
the end of the active region, give it a uniform random position wrapped by the
boundary, and record the new relative index. -/
def atomicAddGo (boundary : Point → Point) (gi : ℕ) :
    ℕ → List Point → Space → List ℕ → AtomAddRes
  | 0, pos, spc, acc => ⟨spc, acc, pos⟩
  | n + 1, pos, spc, acc =>
    match spc.groups.get? gi with
    | none => ⟨spc, acc, pos⟩
    | some g =>
      let spc1 := spc.setGroupSize gi (g.size + 1)
      let spc2 := spc1.setParticlePos (g.first + g.size) (boundary (pos.headD {}))
      atomicAddGo boundary gi n pos.tail spc2 (acc ++ [g.size])

/-- Result bundle of the molecular insertion loop. -/
structure MolAddRes where
  spc : Space
  bond : ℚ
  entries : List ChangeData
  picks : List ℕ
  positions : List Point
  rots : List (Point → Point)

/-- Molecular insertion loop (speciation.cpp lines 149-174): each iteration
re-reads the lazy INACTIVE view, samples a group, activates it fully,
translates its template to a random mass center, rotates it by a random
quaternion, subtracts its intramolecular bond energy and records a
whole-group entry. -/
def molAddGo (molecules : ℕ → MoleculeData) (intra : Space → ℕ → ℚ)
    (boundary : Point → Point) (molid : ℕ) :
    ℕ → List ℕ → List Point → List (Point → Point) → Space → ℚ → MolAddRes
  | 0, picks, pos, rots, spc, bond => ⟨spc, bond, [], picks, pos, rots⟩
  | n + 1, picks, pos, rots, spc, bond =>
    match spc.findMolecules molid .INACTIVE with
    | [] => ⟨spc, bond, [], picks, pos, rots⟩
    | x :: xs =>
      let ig := (x :: xs).getD (picks.headD 0 % (x :: xs).length) x
      let spc1 := spc.setGroupSize ig.1 ig.2.capacity
      let spc2 := spc1.translateGroup boundary ig.1 ig.2.cm.neg
      let spc3 := spc2.translateGroup boundary ig.1 (pos.headD {})
      let spc4 := spc3.rotateGroup boundary ig.1 (rots.headD id)
      let bond1 := bond - intra spc4 ig.1
      let d : ChangeData :=
        { index := ig.1, all := true, internal := true, atoms := List.range ig.2.capacity }
      let r := molAddGo molecules intra boundary molid n picks.tail pos.tail rots.tail spc4 bond1
      ⟨r.spc, r.bond, d :: r.entries, r.picks, r.positions, r.rots⟩

/-- Result bundle of the whole insertion phase. -/
structure AddRes where
  spc : Space
  entries : List ChangeData
  bond : ℚ
  positions : List Point
  molPicks : List ℕ
  rots : List (Point → Point)

/-- Insertion phase (speciation.cpp lines 130-176): process the add-set
species in declaration order; atomic species activate slots in their single
group and record one entry with the relative indices sorted ascending;
molecular species run the molecular insertion loop. -/
def addMolecules (molecules : ℕ → MoleculeData) (intra : Space → ℕ → ℚ)
    (boundary : Point → Point) :
    List (ℕ × ℕ) → Space → List Point → List ℕ → List (Point → Point) → ℚ → AddRes
  | [], spc, pos, mp, rots, bond => ⟨spc, [], bond, pos, mp, rots⟩
  | m :: rest, spc, pos, mp, rots, bond =>
    if (molecules m.1).atomic then
      match spc.findMolecules m.1 .ALL with
      | ig :: _ =>
        let r := atomicAddGo boundary ig.1 m.2 pos spc []
        let d : ChangeData :=
          { index := ig.1, internal := true, dNatomic := true,
            atoms := List.insertionSort (· ≤ ·) r.recorded }
        let rr := addMolecules molecules intra boundary rest r.spc r.positions mp rots bond
        ⟨rr.spc, d :: rr.entries, rr.bond, rr.positions, rr.molPicks, rr.rots⟩
      | _ => addMolecules molecules intra boundary rest spc pos mp rots bond
    else
      let r := molAddGo molecules intra boundary m.1 m.2 mp pos rots spc bond
      let rr := addMolecules molecules intra boundary rest r.spc r.positions r.picks r.rots r.bond
      ⟨rr.spc, r.entries ++ rr.entries, rr.bond, rr.positions, rr.molPicks, rr.rots⟩

/-- Everything `SpeciationMove::_move` leaves behind: the mutated trial and
peer Space, the filled change descriptor and the member variables `lnK`,
`forward` and `bondenergy` that `bias` later reads. -/
structure MoveResult where
  spc : Space
  other : Space
  change : Change
  lnK : ℚ
  forward : Bool
  bondenergy : ℚ
deriving DecidableEq, Repr

/-- `SpeciationMove::_move` (speciation.cpp lines 18-181).  `bond0` is the
incoming value of the `bondenergy` member, kept by the early returns.  An
empty reaction list throws; the canonic-exhaustion check, the feasibility
checks and the swap sub-case can slip out with an untouched empty change;
otherwise the deletion and insertion phases run and the change is finished
with `dN = true` and its per-group entries sorted by group index. -/
def SpeciationMove.move (molecules : ℕ → MoleculeData) (tpl : ℕ → Particle)
    (intra : Space → ℕ → ℚ) (boundary : Point → Point)
    (reactions : List ReactionData) (rnd : Rnd) (bond0 : ℚ)
    (spc otherspc : Space) : Except String MoveResult :=
  if reactions.isEmpty then
    .error "No reactions in list, disable rcmc or add reactions"
  else
    let rit := sampledReaction reactions rnd.reactionPick
    let fwd := rnd.coin
    let early : MoveResult := ⟨spc, otherspc, {}, rit.lnK, fwd, bond0⟩
    if rit.exhausted fwd then .ok early
    else
      match runChecks (deleteCheck molecules spc) (rit.Molecules2Add (!fwd)) with
      | .error e => .error e
      | .ok false => .ok early
      | .ok true =>
        match runChecks (addCheck molecules spc) (rit.Molecules2Add fwd) with
        | .error e => .error e
        | .ok false => .ok early
        | .ok true =>
          match swapPhase tpl rit fwd rnd spc with
          | .error e => .error e
          | .ok none => .ok early
          | .ok (some sp) =>
            let del := deleteMolecules molecules intra (rit.Molecules2Add (!fwd))
              sp.1 otherspc rnd.delAtomPicks rnd.delMolPicks 0
            let add := addMolecules molecules intra boundary (rit.Molecules2Add fwd)
              del.spc rnd.addPositions rnd.addMolPicks rnd.molRots del.bond
            .ok ⟨add.spc, del.other,
              { dN := true, groups := sortGroups (sp.2 ++ del.entries ++ add.entries) },
              rit.lnK, fwd, add.bond⟩

/-- `SpeciationMove::bias` (speciation.cpp lines 182-186): `∓lnK + bondenergy`
from the members set by the last `_move`, ignoring the change descriptor and
the energies. -/
def SpeciationMove.bias (forward : Bool) (lnK bondenergy : ℚ)
    (_change : Change) (_uold _unew : ℚ) : ℚ :=
  if forward then -lnK + bondenergy else lnK + bondenergy

/-- The acceptance statistic of a reaction: `Average<double>` receiving
sample 1 on accept and 0 on reject. -/
structure Avg where
  cnt : ℕ := 0
  sum : ℚ := 0
deriving DecidableEq, Repr

/-- `accmap[name] += 1`: the average keyed by `rname` receives sample 1. -/
def bumpAvg (accmap : String → Avg) (rname : String) : String → Avg :=
  fun s => if s = rname
    then { cnt := (accmap rname).cnt + 1, sum := (accmap rname).sum + 1 }
    else accmap s

/-- `SpeciationMove::_accept` (speciation.cpp lines 187-192): add sample 1 to
the statistic keyed by the reaction name, shift `N_reservoir` by ∓1 with the
direction, and throw if a canonic reservoir went negative. -/
def SpeciationMove.accept (accmap : String → Avg) (rname : String) (canonic : Bool)
    (nres : ℤ) (forward : Bool) : Except String ((String → Avg) × ℤ) :=
  let accmap1 := bumpAvg accmap rname
  let nres1 := nres + (if forward then -1 else 1)
  if nres1 < 0 ∧ canonic then .error "There are no negative number of molecules"
  else .ok (accmap1, nres1)

/-- Modelled from the spec: the geometry kernel used by the sanity check —
`collision(p)` is true when `p` lies outside the cell, `sqdist` is the
minimum-image squared distance. -/
structure Geo where
  collision : Point → Bool
  sqdist : Point → Point → ℚ

/-- The active particles of a group, in slot order. -/
def groupActiveParticles (spc : Space) (g : Group) : List Particle :=
  (List.range g.size).filterMap fun j => spc.p.get? (g.first + j)

/-- Boundary-collision loop of `SanityCheck::_sample` for one group
(analysis.cpp lines 620-626). -/
def collisionCheck (geo : Geo) (spc : Space) (g : Group) : Except String Unit :=
  if (groupActiveParticles spc g).any fun q => geo.collision q.pos then
    .error "particle outside container"
  else .ok ()

/-- Slot walk of the group-vector sync check (analysis.cpp lines 629-633):
compare each slot address `first + j` of a group against the running particle
counter `i`, with the `std::vector::at` bounds check evaluated first. -/
def syncSlots (plen : ℕ) : ℕ → ℕ → ℕ → Except String Unit
  | _, _, 0 => .ok ()
  | slot, i, k + 1 =>
    if plen ≤ i then .error "vector at out of range"
    else if slot ≠ i then .error "group vector out of sync"
    else syncSlots plen (slot + 1) (i + 1) k

/-- Group walk of the sync check: every slot up to `trueend` (capacity) of
every group must coincide with the next particle of `p`. -/
def syncGroups (plen : ℕ) : ℕ → List Group → Except String Unit
  | _, [] => .ok ()
  | i, g :: rest =>
    match syncSlots plen g.first i g.capacity with
    | .error e => .error e
    | .ok _ => syncGroups plen (i + g.capacity) rest

/-- Mass-center drift check of `SanityCheck::_sample` for one group
(analysis.cpp lines 636-651): only non-atomic non-empty groups are checked,
against the mass-center oracle `mc` called as in the source with the active
particles and the shift `-g.cm`. -/
def cmCheck (geo : Geo) (mc : List Particle → Point → Point) (spc : Space)
    (g : Group) : Except String Unit :=
  if g.atomic then .ok ()
  else if g.size = 0 then .ok ()
  else if (1 : ℚ) / 1000000 < geo.sqdist g.cm (mc (groupActiveParticles spc g) g.cm.neg) then
    .error "mass center-out-of-sync"
  else .ok ()

/-- Outer loop of `SanityCheck::_sample`: for each group, the collision check,
then the (group-independent) sync check, then the mass-center check. -/
def sanityGo (geo : Geo) (mc : List Particle → Point → Point) (spc : Space) :
    List Group → Except String Unit
  | [] => .ok ()
  | g :: rest =>
    match collisionCheck geo spc g with
    | .error e => .error e
    | .ok _ =>
      match syncGroups spc.p.length 0 spc.groups with
      | .error e => .error e
      | .ok _ =>
        match cmCheck geo mc spc g with
        | .error e => .error e
        | .ok _ => sanityGo geo mc spc rest

/-- `SanityCheck::_sample` (analysis.cpp lines 617-652). -/
def SanityCheck.sample (geo : Geo) (mc : List Particle → Point → Point)
    (spc : Space) : Except String Unit :=
  sanityGo geo mc spc spc.groups

/-- Modelled from the spec: `Space::scaleVolume` delegates the new volume to
the geometry and moves mass centers and particles by the geometric scale
factor, which lives in the geometry kernel and is passed as the oracle
`scalePos (Vold) (Vnew)`. -/
def Space.scaleVolume (scalePos : ℚ → ℚ → Point → Point) (spc : Space) (Vnew : ℚ) : Space :=
  { p := spc.p.map fun q => { q with pos := scalePos spc.volume Vnew q.pos },
    groups := spc.groups.map fun g => { g with cm := scalePos spc.volume Vnew g.cm },
    volume := Vnew }

/-- Outcome of one `VirtualVolume::_sample` event: the Space it leaves behind
and the sample added to `duexp` (`none` when the event is skipped because
`exp` would overflow). -/
structure VVOut where
  spc : Space
  sampled : Option ℚ
deriving DecidableEq

/-- `VirtualVolume::_sample` (analysis.cpp lines 242-267): when `|dV|` is not
negligible, scale to `V+dV`, evaluate the energy, scale back to `V`, and
record `exp(-du)` unless the exponential would overflow (`expQ` and
`maxExpArg` embed `std::exp` and `pc::max_exp_argument`). -/
def VirtualVolume.sample (scalePos : ℚ → ℚ → Point → Point) (energy : Space → ℚ)
    (expQ : ℚ → ℚ) (maxExpArg : ℚ) (dV : ℚ) (spc : Space) : VVOut :=
  if (1 : ℚ) / 10000000000 < |dV| then
    let Uold := energy spc
    let spc1 := spc.scaleVolume scalePos (spc.volume + dV)
    let Unew := energy spc1
    let spc2 := spc1.scaleVolume scalePos spc.volume
    let du := Unew - Uold
    if -du < maxExpArg then ⟨spc2, some (expQ (-du))⟩ else ⟨spc2, none⟩
  else ⟨spc, none⟩

/-- `std::copy(pin.begin(), pin.end(), g.begin())`: overwrite the slots from
`start` on with the given particles. -/
def writeAt (l : List Particle) : ℕ → List Particle → List Particle
  | _, [] => l
  | start, q :: rest => writeAt (l.set start q) (start + 1) rest

/-- `std::copy` of one nonempty trial configuration into the ghost group's
slots (analysis.cpp line 429). -/
def widomWrite (pins : ℕ → List Particle) (i : ℕ) (spc : Space) (g : Group) : Space :=
  { spc with p := writeAt spc.p g.first (pins i) }

/-- One nonempty trial-insertion event (analysis.cpp lines 419-433): copy the
inserter oracle's particles into the ghost group; for molecular ghosts also
refresh the stored mass center through the `mc` oracle, called as in the
source with the active particles and the shift `-g.begin()->pos`.  The `expu`
accumulation has no effect on the Space and is not tracked. -/
def widomStep (mc : List Particle → Point → Point) (pins : ℕ → List Particle)
    (gidx i : ℕ) (spc : Space) (g : Group) : Space :=
  if g.atomic then widomWrite pins i spc g
  else (widomWrite pins i spc g).setGroupCm gidx
    (mc (groupActiveParticles (widomWrite pins i spc g) { g with size := g.capacity })
      ((widomWrite pins i spc g).p.getD g.first {}).pos.neg)

/-- Trial-insertion loop of `WidomInsertion::_sample` (analysis.cpp lines
417-434): `ninsert` events; events whose inserter list is empty are skipped. -/
def widomGo (mc : List Particle → Point → Point) (pins : ℕ → List Particle)
    (gidx : ℕ) : ℕ → ℕ → Space → Space
  | 0, _, spc => spc
  | n + 1, i, spc =>
    match spc.groups.get? gidx with
    | none => spc
    | some g =>
      if (pins i).isEmpty then widomGo mc pins gidx n (i + 1) spc
      else widomGo mc pins gidx n (i + 1) (widomStep mc pins gidx i spc g)

/-- `WidomInsertion::_sample` (analysis.cpp lines 411-437): on a nonempty
change, resize the ghost group (`change.groups[0].index`, looked up with the
throwing `std::vector::at`) to full capacity, run the trial-insertion loop,
and resize it back to zero. -/
def WidomInsertion.sample (mc : List Particle → Point → Point)
    (pins : ℕ → List Particle) (ninsert : ℕ) (change : Change) (spc : Space) :
    Except String Space :=
  if change.isEmpty then .ok spc
  else
    match spc.groups.get? (change.groups.getD 0 {}).index with
    | none => .error "vector at out of range"
    | some g =>
      .ok ((widomGo mc pins (change.groups.getD 0 {}).index ninsert 0
        (spc.setGroupSize (change.groups.getD 0 {}).index g.capacity)).setGroupSize
          (change.groups.getD 0 {}).index 0)

/-- The number of active particles of a Space. -/
def Space.activeCount (spc : Space) : ℕ := (spc.groups.map Group.size).sum

/-! Concrete instances used by witnesses and counterexamples: a single atomic
species (molecule id 0) with one group of three active atoms, and the trivial
oracles. -/

def moleculesW : ℕ → MoleculeData := fun i => if i = 0 then ⟨true⟩ else ⟨false⟩

def tplW : ℕ → Particle := fun i => { id := i }

def intra0 : Space → ℕ → ℚ := fun _ _ => 0

def reactionW : ReactionData := { name := "r", lnK := 2, reagid_m := [(0, 1)] }

def spcW : Space :=
  { p := [⟨10, {}⟩, ⟨11, {}⟩, ⟨12, {}⟩],
    groups := [{ molid := 0, first := 0, capacity := 3, size := 3, atomic := true }] }

def rndW : Rnd := { coin := true, delAtomPicks := [1] }

def amap0 : String → Avg := fun _ => {}

/-- The claim-level shortfall condition for one remove-set species: an atomic
species has fewer active atoms in its (single) group than its required
multiplicity, a molecular species fewer active groups than required. -/
def removeInfeasible (molecules : ℕ → MoleculeData) (spc : Space) (m : ℕ × ℕ) : Bool :=
  if (molecules m.1).atomic then
    match spc.findMolecules m.1 .ALL with
    | [ig] => decide (ig.2.size < m.2)
    | _ => false
  else decide ((spc.findMolecules m.1 .ACTIVE).length < m.2)

/-- The claim-level shortfall condition for one add-set species: an atomic
species lacks capacity headroom in its (single) group, a molecular species
has fewer inactive groups than required. -/
def addInfeasible (molecules : ℕ → MoleculeData) (spc : Space) (m : ℕ × ℕ) : Bool :=
  if (molecules m.1).atomic then
    match spc.findMolecules m.1 .ALL with
    | [ig] => decide (ig.2.capacity < ig.2.size + m.2)
    | _ => false
  else decide ((spc.findMolecules m.1 .INACTIVE).length < m.2)

/-- A concrete swap reaction: atom id 11 becomes atom id 77. -/
def swapR : ReactionData := { name := "sw", swap := true, reagid_a := [(11, 1)], prodid_a := [(77, 1)] }

def gW : Group := { molid := 0, first := 0, capacity := 3, size := 3, atomic := true }

def rnd0 : Rnd := {}

def rW : MoveResult :=
  { spc := { spcW with groups := [{ molid := 0, first := 0, capacity := 3, size := 2, atomic := true }] },
    other := spcW,
    change := { dN := true, groups := [{ index := 0, internal := true, dNatomic := true, atoms := [2] }] },
    lnK := 2, forward := true, bondenergy := 0 }

/-- A geometry oracle without collisions and with zero distances. -/
def geoF : Geo := { collision := fun _ => false, sqdist := fun _ _ => 0 }

def mc0 : List Particle → Point → Point := fun _ _ => {}

/-- An atomic group claiming to start at slot 1 of a one-particle array: no
active particles, but the group-vector bookkeeping is out of sync. -/
def gBad : Group := { molid := 0, first := 1, capacity := 1, size := 0, atomic := true }

def spcBad : Space := { p := [{}], groups := [gBad] }

/-- A Widom scenario: one active atomic group and an inactive molecular ghost
group of capacity 2 over slots 2 and 3, with a two-particle inserter. -/
def pinsG : ℕ → List Particle := fun _ => [⟨50, {}⟩, ⟨51, {}⟩]

def ghostG : Group := { molid := 1, first := 2, capacity := 2, size := 0 }

def spcG : Space :=
  { p := [⟨10, {}⟩, ⟨11, {}⟩, ⟨0, {}⟩, ⟨0, {}⟩],
    groups := [{ molid := 0, first := 0, capacity := 2, size := 2, atomic := true }, ghostG] }

def changeG : Change := { groups := [{ index := 1, all := true }] }

def spcG2 : Space := { spcG with p := [⟨10, {}⟩, ⟨11, {}⟩, ⟨50, {}⟩, ⟨51, {}⟩] }

end Faunus

namespace Faunus

/-- On every successful `_move` the members `forward` and `lnK` read later by
`bias` hold the chosen direction and the sampled reaction's `lnK`. -/
theorem move_ok_members (molecules : ℕ → MoleculeData) (tpl : ℕ → Particle)
    (intra : Space → ℕ → ℚ) (boundary : Point → Point)
    (reactions : List ReactionData) (rnd : Rnd) (bond0 : ℚ)
    (spc otherspc : Space) (r : MoveResult)
    (h : SpeciationMove.move molecules tpl intra boundary reactions rnd bond0 spc otherspc = .ok r) :
    r.forward = rnd.coin ∧ r.lnK = (sampledReaction reactions rnd.reactionPick).lnK := by
  unfold SpeciationMove.move at h
  repeat' first
    | split at h
    | (simp only [Except.ok.injEq] at h; subst h; exact ⟨rfl, rfl⟩)
    | simp at h

/-- C9: calling `SpeciationMove::_move` with an empty reaction list throws a
runtime error instead of returning an empty Change. -/
theorem speciation_empty_reaction_list_throws (molecules : ℕ → MoleculeData)
    (tpl : ℕ → Particle) (intra : Space → ℕ → ℚ) (boundary : Point → Point)
    (rnd : Rnd) (bond0 : ℚ) (spc otherspc : Space) :
    SpeciationMove.move molecules tpl intra boundary [] rnd bond0 spc otherspc =
      .error "No reactions in list, disable rcmc or add reactions" := rfl

/-- C2: for every sampled reaction and chosen direction, `bias` returns
`-lnK + bondenergy` when the direction is forward and `+lnK + bondenergy`
when it is backward, regardless of the Change object and energies. -/
theorem speciation_bias_sign (molecules : ℕ → MoleculeData) (tpl : ℕ → Particle)
    (intra : Space → ℕ → ℚ) (boundary : Point → Point)
    (reactions : List ReactionData) (rnd : Rnd) (bond0 : ℚ)
    (spc otherspc : Space) (r : MoveResult)
    (h : SpeciationMove.move molecules tpl intra boundary reactions rnd bond0 spc otherspc = .ok r)
    (c c2 : Change) (uold unew uold2 unew2 : ℚ) :
    SpeciationMove.bias r.forward r.lnK r.bondenergy c uold unew =
      (if rnd.coin then -(sampledReaction reactions rnd.reactionPick).lnK + r.bondenergy
       else (sampledReaction reactions rnd.reactionPick).lnK + r.bondenergy) ∧
    SpeciationMove.bias r.forward r.lnK r.bondenergy c uold unew =
      SpeciationMove.bias r.forward r.lnK r.bondenergy c2 uold2 unew2 := by
  obtain ⟨hf, hk⟩ := move_ok_members molecules tpl intra boundary reactions rnd bond0
    spc otherspc r h
  exact ⟨by rw [SpeciationMove.bias, hf, hk], rfl⟩

/-- C2 witness: the bias of a concrete accepted forward deletion move. -/
theorem speciation_bias_sign_witness :
    SpeciationMove.bias rW.forward rW.lnK rW.bondenergy {} 0 0 =
      (if rndW.coin then -(sampledReaction [reactionW] rndW.reactionPick).lnK + rW.bondenergy
       else (sampledReaction [reactionW] rndW.reactionPick).lnK + rW.bondenergy) ∧
    SpeciationMove.bias rW.forward rW.lnK rW.bondenergy {} 0 0 =
      SpeciationMove.bias rW.forward rW.lnK rW.bondenergy { dV := true } 1 2 :=
  speciation_bias_sign moleculesW tplW intra0 id [reactionW] rndW 0 spcW spcW rW
    rfl {} { dV := true } 0 0 1 2

/-- C4: on acceptance the statistic keyed by the reaction name receives one
accepted sample, `N_reservoir` shifts by -1 forward / +1 backward, a canonic
reservoir that would go negative raises the fatal error, and consequently a
canonic `N_reservoir` is never negative after a completed accept. -/
theorem speciation_accept_spec (accmap : String → Avg) (rname : String)
    (canonic : Bool) (nres : ℤ) (fwd : Bool) :
    SpeciationMove.accept accmap rname canonic nres fwd =
      (if nres + (if fwd then -1 else 1) < 0 ∧ canonic
       then .error "There are no negative number of molecules"
       else .ok (bumpAvg accmap rname, nres + (if fwd then -1 else 1))) ∧
    (∀ m n, SpeciationMove.accept accmap rname canonic nres fwd = .ok (m, n) →
      (m rname).cnt = (accmap rname).cnt + 1 ∧ (m rname).sum = (accmap rname).sum + 1 ∧
      n = nres + (if fwd then -1 else 1) ∧ (canonic = true → 0 ≤ n)) := by
  refine ⟨rfl, fun m n h => ?_⟩
  simp only [SpeciationMove.accept] at h
  by_cases hC : nres + (if fwd then -1 else 1) < 0 ∧ canonic = true
  · rw [if_pos hC] at h
    exact absurd h (fun hh => Except.noConfusion hh)
  · rw [if_neg hC] at h
    simp only [Except.ok.injEq, Prod.mk.injEq] at h
    obtain ⟨hm, hn⟩ := h
    subst hm
    subst hn
    refine ⟨by simp [bumpAvg], by simp [bumpAvg], rfl, fun hc => ?_⟩
    have hnot : ¬(nres + (if fwd then -1 else 1) < 0) := fun hlt => hC ⟨hlt, hc⟩
    exact not_lt.mp hnot

/-- C4 witness: a concrete canonic forward accept from reservoir 5. -/
theorem speciation_accept_spec_witness :
    (bumpAvg amap0 "r" "r").cnt = (amap0 "r").cnt + 1 ∧
    (bumpAvg amap0 "r" "r").sum = (amap0 "r").sum + 1 ∧
    (4 : ℤ) = 5 + (if true then -1 else 1) ∧ (true = true → (0 : ℤ) ≤ 4) := by
  have h2 : SpeciationMove.accept amap0 "r" true 5 true = .ok (bumpAvg amap0 "r", 4) := by
    rw [(speciation_accept_spec amap0 "r" true 5 true).1]
    norm_num
  exact (speciation_accept_spec amap0 "r" true 5 true).2 (bumpAvg amap0 "r") 4 h2

/-- C8: `VirtualVolume::_sample` always leaves the volume at its entry value,
and in the non-degenerate case does so by scaling to `V+dV` and back to `V`. -/
theorem virtualvolume_restores_volume (scalePos : ℚ → ℚ → Point → Point)
    (energy : Space → ℚ) (expQ : ℚ → ℚ) (maxExpArg dV : ℚ) (spc : Space) :
    (VirtualVolume.sample scalePos energy expQ maxExpArg dV spc).spc.volume = spc.volume ∧
    ((1 : ℚ) / 10000000000 < |dV| →
      (VirtualVolume.sample scalePos energy expQ maxExpArg dV spc).spc =
        (spc.scaleVolume scalePos (spc.volume + dV)).scaleVolume scalePos spc.volume) := by
  simp only [VirtualVolume.sample]
  split
  · split <;> exact ⟨rfl, fun _ => rfl⟩
  · rename_i hdv
    exact ⟨rfl, fun hh => absurd hh hdv⟩

/-- C8 witness: a concrete perturbation with `dV = 1` restores the volume. -/
theorem virtualvolume_restores_volume_witness :
    (VirtualVolume.sample (fun _ _ q => q) (fun _ => 0) (fun _ => 1) 80 1 spcW).spc.volume =
        spcW.volume ∧
    (VirtualVolume.sample (fun _ _ q => q) (fun _ => 0) (fun _ => 1) 80 1 spcW).spc =
      (spcW.scaleVolume (fun _ _ q => q) (spcW.volume + 1)).scaleVolume (fun _ _ q => q)
        spcW.volume :=
  ⟨(virtualvolume_restores_volume (fun _ _ q => q) (fun _ => 0) (fun _ => 1) 80 1 spcW).1,
   (virtualvolume_restores_volume (fun _ _ q => q) (fun _ => 0) (fun _ => 1) 80 1 spcW).2
     (by norm_num)⟩

/-- C1: at the failing input — an atomic group with three active atoms (ids
10, 11, 12 in slots 0, 1, 2) and the random pick at relative index 1, one
slot before the last — the deletion step of the speciation move performs no
swap at all in either Space (the guard `distance(ait, nait) > 1` fails for
distance 1), records the end index 2 and shrinks the size to 2, so the
particle deactivated is the one that was in the last slot (id 12) and the
randomly picked atom (id 11) stays active: the picked particle is not the
deactivated one, contradicting the claim. -/
theorem atomic_delete_skips_swap_at_failing_input :
    atomicDeleteStep 0 0 0 1 spcW spcW =
      ({ spcW with groups := [{ molid := 0, first := 0, capacity := 3, size := 2, atomic := true }] },
        spcW, 2) ∧
    (spcW.p.getD 1 {}).id = 11 ∧ (spcW.p.getD 2 {}).id = 12 ∧ (11 : ℕ) ≠ 12 := by
  decide

/-- Elements of `findAtoms` are indices of particles carrying the id. -/
theorem findAtoms_mem_id (spc : Space) (aid i : ℕ) (hi : i ∈ spc.findAtoms aid) :
    (spc.p.get? i).map Particle.id = some aid := by
  unfold Space.findAtoms at hi
  obtain ⟨_, hfilt⟩ := List.mem_filter.mp hi
  rcases hp : spc.p.get? i with _ | q
  · rw [hp] at hfilt
    simp at hfilt
  · rw [hp] at hfilt
    simp only [beq_iff_eq] at hfilt
    simp [hfilt]

/-- The sampled element of a nonempty `findAtoms` list is one of its
members. -/
theorem pickedAtom_mem (spc : Space) (aid k : ℕ) (hne : spc.findAtoms aid ≠ []) :
    pickedAtom spc aid k ∈ spc.findAtoms aid := by
  unfold pickedAtom
  have hlen : 0 < (spc.findAtoms aid).length := List.length_pos.mpr hne
  have hmod := Nat.mod_lt k hlen
  rw [List.getD_eq_getElem?_getD, List.getElem?_eq_getElem hmod]
  simpa using List.getElem_mem hmod

/-- C6: in the swap sub-case, exactly one randomly picked active atom of the
outgoing species — the particle array changes only at its index — has its id
replaced by the incoming species' id with its position kept, and its relative
index is recorded in a change entry with the `dNswap` and `internal` flags
set. -/
theorem speciation_swap_spec (tpl : ℕ → Particle) (r : ReactionData) (fwd : Bool)
    (rnd : Rnd) (spc : Space) (aOut nOut aIn nIn gi : ℕ) (g : Group)
    (hswap : r.swap = true)
    (hout : r.Atoms2Add (!fwd) = [(aOut, nOut)])
    (hin : r.Atoms2Add fwd = [(aIn, nIn)])
    (hne : spc.findAtoms aOut ≠ [])
    (htpl : (tpl aIn).id = aIn)
    (hgc : spc.findGroupContaining (pickedAtom spc aOut rnd.swapPick) = some gi)
    (hg : spc.groups.get? gi = some g) :
    swapPhase tpl r fwd rnd spc =
      .ok (some ({ spc with p := (spc.p.set (pickedAtom spc aOut rnd.swapPick)
            ({ tpl aIn with pos := (spc.p.getD (pickedAtom spc aOut rnd.swapPick) (tpl aIn)).pos })) },
          [{ index := gi, internal := true, dNswap := true,
             atoms := [pickedAtom spc aOut rnd.swapPick - g.first] }])) ∧
    ({ tpl aIn with pos := (spc.p.getD (pickedAtom spc aOut rnd.swapPick) (tpl aIn)).pos } : Particle).id = aIn ∧
    (spc.p.get? (pickedAtom spc aOut rnd.swapPick)).map Particle.id = some aOut := by
  have hid := findAtoms_mem_id spc aOut _ (pickedAtom_mem spc aOut rnd.swapPick hne)
  have h1 : ¬((spc.findAtoms aOut).length < 1) := by
    simpa [Nat.lt_one_iff, List.length_eq_zero] using hne
  refine ⟨?_, by simp [htpl], hid⟩
  have hg2 : spc.groups[gi]? = some g := by
    rw [← List.get?_eq_getElem?]
    exact hg
  unfold swapPhase
  rw [hswap]
  simp [hout, hin, h1, hgc, hg2]

/-- C6 witness: the concrete swap of active atom id 11 (slot 1) to id 77. -/
theorem speciation_swap_spec_witness :
    swapPhase tplW swapR true rnd0 spcW =
      .ok (some ({ spcW with p := (spcW.p.set (pickedAtom spcW 11 rnd0.swapPick)
            ({ tplW 77 with pos := (spcW.p.getD (pickedAtom spcW 11 rnd0.swapPick) (tplW 77)).pos })) },
          [{ index := 0, internal := true, dNswap := true,
             atoms := [pickedAtom spcW 11 rnd0.swapPick - gW.first] }])) ∧
    ({ tplW 77 with pos := (spcW.p.getD (pickedAtom spcW 11 rnd0.swapPick) (tplW 77)).pos } : Particle).id = 77 ∧
    (spcW.p.get? (pickedAtom spcW 11 rnd0.swapPick)).map Particle.id = some 11 :=
  speciation_swap_spec tplW swapR true rnd0 spcW 11 1 77 1 0 gW rfl rfl rfl
    (by decide) rfl rfl rfl

/-- Under the one-group-per-atomic-molecule well-formedness condition, the
deletion feasibility check never throws and returns exactly the negation of
the claim-level shortfall condition. -/
theorem deleteCheck_eq (molecules : ℕ → MoleculeData) (spc : Space) (m : ℕ × ℕ)
    (hwf : (molecules m.1).atomic = true → (spc.findMolecules m.1 .ALL).length = 1) :
    deleteCheck molecules spc m = .ok (!removeInfeasible molecules spc m) := by
  by_cases ha : (molecules m.1).atomic = true
  · obtain ⟨ig, hig⟩ := List.length_eq_one.mp (hwf ha)
    simp only [deleteCheck, removeInfeasible, ha, if_true, hig]
    congr 1
    rw [← decide_not]
    exact decide_eq_decide.mpr (by omega)
  · simp only [deleteCheck, removeInfeasible, ha, Bool.false_eq_true, if_false]
    congr 1
    rw [← decide_not]
    exact decide_eq_decide.mpr (by omega)

/-- Same for the addition feasibility check. -/
theorem addCheck_eq (molecules : ℕ → MoleculeData) (spc : Space) (m : ℕ × ℕ)
    (hwf : (molecules m.1).atomic = true → (spc.findMolecules m.1 .ALL).length = 1) :
    addCheck molecules spc m = .ok (!addInfeasible molecules spc m) := by
  by_cases ha : (molecules m.1).atomic = true
  · obtain ⟨ig, hig⟩ := List.length_eq_one.mp (hwf ha)
    simp only [addCheck, addInfeasible, ha, if_true, hig]
    congr 1
    rw [← decide_not]
    exact decide_eq_decide.mpr (by omega)
  · simp only [addCheck, addInfeasible, ha, Bool.false_eq_true, if_false]
    congr 1
    rw [← decide_not]
    exact decide_eq_decide.mpr (by omega)

/-- When no check throws, the check loop returns whether all species pass. -/
theorem runChecks_eq (check : ℕ × ℕ → Except String Bool) (pass : ℕ × ℕ → Bool)
    (l : List (ℕ × ℕ)) (h : ∀ m ∈ l, check m = .ok (pass m)) :
    runChecks check l = .ok (l.all pass) := by
  induction l with
  | nil => rfl
  | cons m rest ih =>
    rw [runChecks, h m (List.mem_cons_self m rest)]
    cases hp : pass m
    · simp [List.all_cons, hp]
    · simp [List.all_cons, hp, ih fun x hx => h x (List.mem_cons_of_mem m hx)]

/-- C3: whenever some remove-set species lacks active matter or some add-set
species lacks room (in the claim's four senses), and every atomic species of
the reaction has its mandatory single group, `_move` returns normally with
the Change left empty (no group entries, `dN` unset) and both Spaces
untouched. -/
theorem speciation_infeasible_returns_empty (molecules : ℕ → MoleculeData)
    (tpl : ℕ → Particle) (intra : Space → ℕ → ℚ) (boundary : Point → Point)
    (reactions : List ReactionData) (rnd : Rnd) (bond0 : ℚ) (spc otherspc : Space)
    (hnonempty : reactions ≠ [])
    (hwf : ∀ m ∈ (sampledReaction reactions rnd.reactionPick).Molecules2Add (!rnd.coin) ++
        (sampledReaction reactions rnd.reactionPick).Molecules2Add rnd.coin,
        (molecules m.1).atomic = true → (spc.findMolecules m.1 .ALL).length = 1)
    (hfail : ((sampledReaction reactions rnd.reactionPick).Molecules2Add (!rnd.coin)).any
        (removeInfeasible molecules spc) = true ∨
      ((sampledReaction reactions rnd.reactionPick).Molecules2Add rnd.coin).any
        (addInfeasible molecules spc) = true) :
    SpeciationMove.move molecules tpl intra boundary reactions rnd bond0 spc otherspc =
      .ok { spc := spc, other := otherspc, change := {},
            lnK := (sampledReaction reactions rnd.reactionPick).lnK,
            forward := rnd.coin, bondenergy := bond0 } := by
  have hdel := runChecks_eq (deleteCheck molecules spc)
    (fun m => !removeInfeasible molecules spc m)
    ((sampledReaction reactions rnd.reactionPick).Molecules2Add (!rnd.coin))
    (fun m hm => deleteCheck_eq molecules spc m (hwf m (List.mem_append_left _ hm)))
  have hadd := runChecks_eq (addCheck molecules spc)
    (fun m => !addInfeasible molecules spc m)
    ((sampledReaction reactions rnd.reactionPick).Molecules2Add rnd.coin)
    (fun m hm => addCheck_eq molecules spc m (hwf m (List.mem_append_right _ hm)))
  have hie : ¬(reactions.isEmpty = true) := by simpa [List.isEmpty_iff] using hnonempty
  simp only [SpeciationMove.move]
  rw [if_neg hie]
  by_cases hex : (sampledReaction reactions rnd.reactionPick).exhausted rnd.coin = true
  · rw [if_pos hex]
  · rw [if_neg hex]
    by_cases hall : ((sampledReaction reactions rnd.reactionPick).Molecules2Add (!rnd.coin)).all
        (fun m => !removeInfeasible molecules spc m) = true
    · have hra : ((sampledReaction reactions rnd.reactionPick).Molecules2Add rnd.coin).all
          (fun m => !addInfeasible molecules spc m) = false := by
        rcases hfail with hf | hf
        · obtain ⟨x, hx, hpx⟩ := List.any_eq_true.mp hf
          have := List.all_eq_true.mp hall x hx
          simp [hpx] at this
        · obtain ⟨x, hx, hpx⟩ := List.any_eq_true.mp hf
          exact List.all_eq_false.mpr ⟨x, hx, by simp [hpx]⟩
      rw [hdel, hall, hadd, hra]
    · have hdf : ((sampledReaction reactions rnd.reactionPick).Molecules2Add (!rnd.coin)).all
          (fun m => !removeInfeasible molecules spc m) = false := by
        cases hb : ((sampledReaction reactions rnd.reactionPick).Molecules2Add (!rnd.coin)).all
            (fun m => !removeInfeasible molecules spc m)
        · rfl
        · exact absurd hb hall
      rw [hdel, hdf]

/-- C3 witness: deleting 5 atoms from an atomic group holding only 3 active
atoms yields a normal return with an empty Change and untouched Spaces. -/
theorem speciation_infeasible_returns_empty_witness :
    SpeciationMove.move moleculesW tplW intra0 id [{ name := "rf", lnK := 3, reagid_m := [(0, 5)] }]
        { coin := true } 0 spcW spcW =
      .ok { spc := spcW, other := spcW, change := {},
            lnK := (sampledReaction [{ name := "rf", lnK := 3, reagid_m := [(0, 5)] }]
              (Rnd.reactionPick { coin := true })).lnK,
            forward := Rnd.coin { coin := true }, bondenergy := 0 } :=
  speciation_infeasible_returns_empty moleculesW tplW intra0 id
    [{ name := "rf", lnK := 3, reagid_m := [(0, 5)] }] { coin := true } 0 spcW spcW
    (by decide) (by decide) (by decide)

/-- Every entry recorded by the molecular deletion loop lists the relative
indices `0..capacity-1` in ascending order. -/
theorem molDeleteGo_atoms_sorted (intra : Space → ℕ → ℚ) (molid : ℕ) :
    ∀ (n : ℕ) (picks : List ℕ) (spc : Space) (bond : ℚ),
      ∀ d ∈ (molDeleteGo intra molid n picks spc bond).entries,
        List.Sorted (· ≤ ·) d.atoms := by
  intro n
  induction n with
  | zero => intro picks spc bond d hd; simp [molDeleteGo] at hd
  | succ k ih =>
    intro picks spc bond d hd
    simp only [molDeleteGo] at hd
    rcases hf : spc.findMolecules molid .ACTIVE with _ | ⟨x, xs⟩ <;> rw [hf] at hd
    · simp at hd
    · simp only [List.mem_cons] at hd
      rcases hd with rfl | hd
      · exact List.sorted_le_range _
      · exact ih _ _ _ d hd

/-- Every entry recorded by the deletion phase has its atom list sorted
ascending: atomic entries are sorted explicitly, molecular entries list a
full range. -/
theorem deleteMolecules_atoms_sorted (molecules : ℕ → MoleculeData)
    (intra : Space → ℕ → ℚ) :
    ∀ (l : List (ℕ × ℕ)) (spc other : Space) (ap mp : List ℕ) (bond : ℚ),
      ∀ d ∈ (deleteMolecules molecules intra l spc other ap mp bond).entries,
        List.Sorted (· ≤ ·) d.atoms := by
  intro l
  induction l with
  | nil => intro spc other ap mp bond d hd; simp [deleteMolecules] at hd
  | cons m rest ih =>
    intro spc other ap mp bond d hd
    simp only [deleteMolecules] at hd
    by_cases ha : (molecules m.1).atomic = true
    · simp only [ha, if_true] at hd
      rcases h1 : spc.findMolecules m.1 .ALL with _ | ⟨ig, igs⟩ <;>
        rcases h2 : other.findMolecules m.1 .ALL with _ | ⟨og, ogs⟩ <;>
          rw [h1, h2] at hd
      · exact ih _ _ _ _ _ d hd
      · exact ih _ _ _ _ _ d hd
      · exact ih _ _ _ _ _ d hd
      · simp only [List.mem_cons] at hd
        rcases hd with rfl | hd
        · exact List.sorted_insertionSort _ _
        · exact ih _ _ _ _ _ d hd
    · simp only [ha, Bool.false_eq_true, if_false] at hd
      rcases List.mem_append.mp hd with hd | hd
      · exact molDeleteGo_atoms_sorted intra m.1 m.2 mp spc bond d hd
      · exact ih _ _ _ _ _ d hd

/-- Every entry recorded by the molecular insertion loop lists a full range. -/
theorem molAddGo_atoms_sorted (molecules : ℕ → MoleculeData) (intra : Space → ℕ → ℚ)
    (boundary : Point → Point) (molid : ℕ) :
    ∀ (n : ℕ) (picks : List ℕ) (pos : List Point) (rots : List (Point → Point))
      (spc : Space) (bond : ℚ),
      ∀ d ∈ (molAddGo molecules intra boundary molid n picks pos rots spc bond).entries,
        List.Sorted (· ≤ ·) d.atoms := by
  intro n
  induction n with
  | zero => intro picks pos rots spc bond d hd; simp [molAddGo] at hd
  | succ k ih =>
    intro picks pos rots spc bond d hd
    simp only [molAddGo] at hd
    rcases hf : spc.findMolecules molid .INACTIVE with _ | ⟨x, xs⟩ <;> rw [hf] at hd
    · simp at hd
    · simp only [List.mem_cons] at hd
      rcases hd with rfl | hd
      · exact List.sorted_le_range _
      · exact ih _ _ _ _ _ d hd

/-- Every entry recorded by the insertion phase has its atom list sorted
ascending. -/
theorem addMolecules_atoms_sorted (molecules : ℕ → MoleculeData)
    (intra : Space → ℕ → ℚ) (boundary : Point → Point) :
    ∀ (l : List (ℕ × ℕ)) (spc : Space) (pos : List Point) (mp : List ℕ)
      (rots : List (Point → Point)) (bond : ℚ),
      ∀ d ∈ (addMolecules molecules intra boundary l spc pos mp rots bond).entries,
        List.Sorted (· ≤ ·) d.atoms := by
  intro l
  induction l with
  | nil => intro spc pos mp rots bond d hd; simp [addMolecules] at hd
  | cons m rest ih =>
    intro spc pos mp rots bond d hd
    simp only [addMolecules] at hd
    by_cases ha : (molecules m.1).atomic = true
    · simp only [ha, if_true] at hd
      rcases h1 : spc.findMolecules m.1 .ALL with _ | ⟨ig, igs⟩ <;> rw [h1] at hd
      · exact ih _ _ _ _ _ d hd
      · simp only [List.mem_cons] at hd
        rcases hd with rfl | hd
        · exact List.sorted_insertionSort _ _
        · exact ih _ _ _ _ _ d hd
    · simp only [ha, Bool.false_eq_true, if_false] at hd
      rcases List.mem_append.mp hd with hd | hd
      · exact molAddGo_atoms_sorted molecules intra boundary m.1 m.2 mp pos rots spc bond d hd
      · exact ih _ _ _ _ _ d hd

/-- The swap sub-case returns either a pass-through, a slip-out, an assert
error, or exactly one change entry holding a single relative index. -/
theorem swapPhase_shape (tpl : ℕ → Particle) (r : ReactionData) (fwd : Bool)
    (rnd : Rnd) (spc : Space) :
    swapPhase tpl r fwd rnd spc = .ok (some (spc, [])) ∨
    (∃ e, swapPhase tpl r fwd rnd spc = .error e) ∨
    swapPhase tpl r fwd rnd spc = .ok none ∨
    (∃ spc2 gi rel, swapPhase tpl r fwd rnd spc = .ok (some (spc2,
      [{ index := gi, internal := true, dNswap := true, atoms := [rel] }]))) := by
  unfold swapPhase
  repeat' split
  all_goals first
    | exact Or.inl rfl
    | exact Or.inr (Or.inl ⟨_, rfl⟩)
    | exact Or.inr (Or.inr (Or.inl rfl))
    | exact Or.inr (Or.inr (Or.inr ⟨_, _, _, rfl⟩))

/-- A successful `_move` either returned an untouched empty change or went
through the full deletion/insertion path whose change is `dN = true` with the
sorted concatenation of the swap, deletion and insertion entries. -/
theorem move_ok_cases (molecules : ℕ → MoleculeData) (tpl : ℕ → Particle)
    (intra : Space → ℕ → ℚ) (boundary : Point → Point)
    (reactions : List ReactionData) (rnd : Rnd) (bond0 : ℚ)
    (spc otherspc : Space) (r : MoveResult)
    (h : SpeciationMove.move molecules tpl intra boundary reactions rnd bond0 spc otherspc = .ok r) :
    r.change = {} ∨
    ∃ sp, swapPhase tpl (sampledReaction reactions rnd.reactionPick) rnd.coin rnd spc =
        .ok (some sp) ∧
      r.change = { dN := true, groups := sortGroups (sp.2 ++
        (deleteMolecules molecules intra
          ((sampledReaction reactions rnd.reactionPick).Molecules2Add (!rnd.coin))
          sp.1 otherspc rnd.delAtomPicks rnd.delMolPicks 0).entries ++
        (addMolecules molecules intra boundary
          ((sampledReaction reactions rnd.reactionPick).Molecules2Add rnd.coin)
          (deleteMolecules molecules intra
            ((sampledReaction reactions rnd.reactionPick).Molecules2Add (!rnd.coin))
            sp.1 otherspc rnd.delAtomPicks rnd.delMolPicks 0).spc
          rnd.addPositions rnd.addMolPicks rnd.molRots
          (deleteMolecules molecules intra
            ((sampledReaction reactions rnd.reactionPick).Molecules2Add (!rnd.coin))
            sp.1 otherspc rnd.delAtomPicks rnd.delMolPicks 0).bond).entries) } := by
  unfold SpeciationMove.move at h
  repeat' first
    | split at h
    | (simp only [Except.ok.injEq] at h; subst h; exact Or.inl rfl)
    | (simp only [Except.ok.injEq] at h; subst h; rename_i sp heq;
       exact Or.inr ⟨sp, heq, rfl⟩)
    | exact Except.noConfusion h
    | dsimp only at h

/-- C5: after every speciation move that returns a non-empty Change, the
per-group entries are sorted ascending by group index, every entry's relative
atom-index list is sorted ascending, and the Change's `dN` flag is set. -/
theorem speciation_change_sorted (molecules : ℕ → MoleculeData) (tpl : ℕ → Particle)
    (intra : Space → ℕ → ℚ) (boundary : Point → Point)
    (reactions : List ReactionData) (rnd : Rnd) (bond0 : ℚ)
    (spc otherspc : Space) (r : MoveResult)
    (h : SpeciationMove.move molecules tpl intra boundary reactions rnd bond0 spc otherspc = .ok r)
    (hne : r.change.groups ≠ []) :
    List.Sorted cdLE r.change.groups ∧
    (∀ d ∈ r.change.groups, List.Sorted (· ≤ ·) d.atoms) ∧
    r.change.dN = true := by
  rcases move_ok_cases molecules tpl intra boundary reactions rnd bond0 spc otherspc r h with
    hempty | ⟨sp, hsw, hch⟩
  · rw [hempty] at hne
    exact absurd rfl hne
  · refine ⟨?_, ?_, ?_⟩
    · rw [hch]
      exact List.sorted_insertionSort cdLE _
    · rw [hch]
      intro d hd
      have hd2 := (List.perm_insertionSort cdLE _).subset hd
      rcases List.mem_append.mp hd2 with hd3 | hd3
      · rcases List.mem_append.mp hd3 with hd4 | hd4
        · rcases swapPhase_shape tpl (sampledReaction reactions rnd.reactionPick) rnd.coin rnd spc with
            hs | ⟨e, hs⟩ | hs | ⟨spc2, gi, rel, hs⟩
          · rw [hs] at hsw
            simp only [Except.ok.injEq, Option.some.injEq] at hsw
            subst hsw
            simp at hd4
          · rw [hs] at hsw
            exact Except.noConfusion hsw
          · rw [hs] at hsw
            simp at hsw
          · rw [hs] at hsw
            simp only [Except.ok.injEq, Option.some.injEq] at hsw
            subst hsw
            simp only [List.mem_singleton] at hd4
            subst hd4
            exact List.sorted_singleton _
        · exact deleteMolecules_atoms_sorted molecules intra _ sp.1 otherspc _ _ _ d hd4
      · exact addMolecules_atoms_sorted molecules intra boundary _ _ _ _ _ _ d hd3
    · rw [hch]

/-- C5 witness: the Change of a concrete accepted atomic deletion is sorted
by group index, has a sorted atom-index list and `dN` set. -/
theorem speciation_change_sorted_witness :
    List.Sorted cdLE rW.change.groups ∧
    List.Sorted (· ≤ ·)
      (ChangeData.atoms { index := 0, internal := true, dNatomic := true, atoms := [2] }) ∧
    rW.change.dN = true :=
  ⟨(speciation_change_sorted moleculesW tplW intra0 id [reactionW] rndW 0 spcW spcW rW rfl
      (by decide)).1,
   (speciation_change_sorted moleculesW tplW intra0 id [reactionW] rndW 0 spcW spcW rW rfl
      (by decide)).2.1 { index := 0, internal := true, dNatomic := true, atoms := [2] } (by decide),
   (speciation_change_sorted moleculesW tplW intra0 id [reactionW] rndW 0 spcW spcW rW rfl
      (by decide)).2.2⟩

/-- The boundary-collision loop passes exactly when no active particle of the
group collides with the cell boundary. -/
theorem collisionCheck_ok_iff (geo : Geo) (spc : Space) (g : Group) :
    collisionCheck geo spc g = .ok () ↔
      ∀ q ∈ groupActiveParticles spc g, geo.collision q.pos = false := by
  unfold collisionCheck
  split
  · rename_i hany
    simp only [List.any_eq_true] at hany
    obtain ⟨q, hq, hcol⟩ := hany
    constructor
    · intro h
      exact absurd h (by simp)
    · intro hall
      rw [hall q hq] at hcol
      exact absurd hcol (by simp)
  · rename_i hany
    simp only [List.any_eq_true] at hany
    constructor
    · intro _ q hq
      cases hc : geo.collision q.pos
      · rfl
      · exact absurd ⟨q, hq, hc⟩ hany
    · intro _
      rfl

/-- The mass-center check passes exactly when a non-atomic non-empty group's
stored mass center is within squared distance 1e-6 of the recomputed one. -/
theorem cmCheck_ok_iff (geo : Geo) (mc : List Particle → Point → Point)
    (spc : Space) (g : Group) :
    cmCheck geo mc spc g = .ok () ↔
      (g.atomic = false → g.size ≠ 0 →
        geo.sqdist g.cm (mc (groupActiveParticles spc g) g.cm.neg) ≤ 1 / 1000000) := by
  unfold cmCheck
  split
  · rename_i ha
    simp [ha]
  · split
    · rename_i ha hz
      simp [hz]
    · split
      · rename_i ha hz hgt
        constructor
        · intro h
          exact absurd h (by simp)
        · intro hr
          have hle := hr (by simpa using ha) hz
          exact absurd hgt (not_lt.mpr hle)
      · rename_i ha hz hle
        constructor
        · intro _ _ _
          exact not_lt.mp hle
        · intro _
          rfl

/-- Structure of the sanity loop: it returns normally iff every group passes
the collision and mass-center checks and (as soon as there is any group at
all) the group-vector sync check passes. -/
theorem sanityGo_ok_iff (geo : Geo) (mc : List Particle → Point → Point)
    (spc : Space) (l : List Group) :
    sanityGo geo mc spc l = .ok () ↔
      ((∀ g ∈ l, collisionCheck geo spc g = .ok () ∧ cmCheck geo mc spc g = .ok ()) ∧
       (l = [] ∨ syncGroups spc.p.length 0 spc.groups = .ok ())) := by
  induction l with
  | nil => simp [sanityGo]
  | cons g rest ih =>
    simp only [sanityGo]
    rcases hc : collisionCheck geo spc g with e | u
    · simp [hc]
    · cases u
      rcases hs : syncGroups spc.p.length 0 spc.groups with e | u2
      · simp [hc, hs]
      · cases u2
        rcases hm : cmCheck geo mc spc g with e | u3
        · simp [hc, hs, hm]
        · cases u3
          simp [hc, hs, hm, ih, List.forall_mem_cons]

/-- C7 (amended): `SanityCheck::_sample` returns normally iff no active
particle lies outside the cell, no non-empty molecular group's stored mass
center deviates from the recomputed one by more than 1e-6 squared, and — a
third condition the claim does not list — the groups tile the particle array
as demanded by the group-vector sync check; it raises a fatal error iff one
of the three fails. -/
theorem sanitycheck_ok_iff (geo : Geo) (mc : List Particle → Point → Point)
    (spc : Space) :
    SanityCheck.sample geo mc spc = .ok () ↔
      ((∀ g ∈ spc.groups,
          (∀ q ∈ groupActiveParticles spc g, geo.collision q.pos = false) ∧
          (g.atomic = false → g.size ≠ 0 →
            geo.sqdist g.cm (mc (groupActiveParticles spc g) g.cm.neg) ≤ 1 / 1000000)) ∧
       (spc.groups = [] ∨ syncGroups spc.p.length 0 spc.groups = .ok ())) := by
  apply Iff.trans (sanityGo_ok_iff geo mc spc spc.groups)
  constructor
  · rintro ⟨h1, h2⟩
    exact ⟨fun g hg => ⟨(collisionCheck_ok_iff geo spc g).mp (h1 g hg).1,
      (cmCheck_ok_iff geo mc spc g).mp (h1 g hg).2⟩, h2⟩
  · rintro ⟨h1, h2⟩
    exact ⟨fun g hg => ⟨(collisionCheck_ok_iff geo spc g).mpr (h1 g hg).1,
      (cmCheck_ok_iff geo mc spc g).mpr (h1 g hg).2⟩, h2⟩

/-- C7 counterexample: a Space whose single group has no active particles (so
no particle can lie outside the cell) and is atomic (so no mass-center check
applies) still makes `_sample` raise a fatal error, because the group does
not start where the particle-array walk expects it: the claim's "if neither
condition holds it returns normally" is false on the code. -/
theorem sanitycheck_raises_without_claimed_conditions :
    SanityCheck.sample geoF mc0 spcBad = .error "group vector out of sync" ∧
    spcBad.groups = [gBad] ∧ gBad.size = 0 ∧ gBad.atomic = true ∧
    groupActiveParticles spcBad gBad = [] :=
  ⟨rfl, rfl, rfl, rfl, rfl⟩

/-- Overwriting a prefix of slots keeps the particle-array length. -/
theorem writeAt_length (xs : List Particle) : ∀ (l : List Particle) (start : ℕ),
    (writeAt l start xs).length = l.length := by
  induction xs with
  | nil => intro l start; rfl
  | cons q rest ih =>
    intro l start
    rw [writeAt, ih, List.length_set]

/-- Overwriting slots `[start, start + |xs|)` leaves the others untouched. -/
theorem writeAt_get?_outside (xs : List Particle) : ∀ (l : List Particle) (start j : ℕ),
    j < start ∨ start + xs.length ≤ j → (writeAt l start xs).get? j = l.get? j := by
  induction xs with
  | nil => intro l start j _; rfl
  | cons q rest ih =>
    intro l start j hj
    simp only [List.length_cons] at hj
    rw [writeAt]
    rw [ih (l.set start q) (start + 1) j (by omega)]
    exact List.get?_set_ne q l (by omega)

/-- Writing back the value already stored changes nothing. -/
theorem set_get?_self {α : Type} (l : List α) (i : ℕ) (a : α) (h : l.get? i = some a) :
    l.set i a = l := by
  apply List.ext_get?
  intro n
  by_cases hn : i = n
  · subst hn
    have hi : i < l.length := by
      by_contra hcon
      rw [List.get?_eq_none.mpr (by omega)] at h
      exact Option.noConfusion h
    rw [List.get?_set_eq_of_lt a hi, h]
  · exact List.get?_set_ne a l hn

/-- Group mutation leaves the particle array alone. -/
theorem modifyGroup_p (spc : Space) (gi : ℕ) (f : Group → Group) :
    (spc.modifyGroup gi f).p = spc.p := by
  unfold Space.modifyGroup
  split <;> rfl

/-- A size-preserving group mutation preserves the list of group sizes. -/
theorem modifyGroup_map_size (spc : Space) (gi : ℕ) (f : Group → Group)
    (hf : ∀ g, (f g).size = g.size) :
    (spc.modifyGroup gi f).groups.map Group.size = spc.groups.map Group.size := by
  unfold Space.modifyGroup
  split
  · rename_i g hg
    show (spc.groups.set gi (f g)).map Group.size = spc.groups.map Group.size
    rw [List.map_set, hf]
    exact set_get?_self _ _ _ (by rw [List.get?_map, hg]; rfl)
  · rfl

/-- Resizing a group does not touch the particles. -/
theorem setGroupSize_p (spc : Space) (gi n : ℕ) : (spc.setGroupSize gi n).p = spc.p :=
  modifyGroup_p ..

/-- Resizing the group at `gi` sets exactly entry `gi` of the size list. -/
theorem setGroupSize_map_size (spc : Space) (gi n : ℕ) (g : Group)
    (hg : spc.groups.get? gi = some g) :
    (spc.setGroupSize gi n).groups.map Group.size = (spc.groups.map Group.size).set gi n := by
  unfold Space.setGroupSize Space.modifyGroup
  rw [hg]
  exact List.map_set ..

/-- Group mutation at `gi` rewrites exactly the group at `gi`. -/
theorem modifyGroup_get?_self (spc : Space) (gi : ℕ) (f : Group → Group) (g : Group)
    (hg : spc.groups.get? gi = some g) :
    (spc.modifyGroup gi f).groups.get? gi = some (f g) := by
  have hi : gi < spc.groups.length := by
    by_contra hcon
    rw [List.get?_eq_none.mpr (by omega)] at hg
    exact Option.noConfusion hg
  unfold Space.modifyGroup
  rw [hg]
  exact List.get?_set_eq_of_lt (f g) hi

/-- One nonempty trial-insertion event keeps the group sizes, the particle
count, the ghost group's window, and every particle outside that window. -/
theorem widomStep_facts (mc : List Particle → Point → Point) (pins : ℕ → List Particle)
    (gidx i : ℕ) (spc : Space) (g : Group) (hg : spc.groups.get? gidx = some g) :
    (widomStep mc pins gidx i spc g).p.length = spc.p.length ∧
    (widomStep mc pins gidx i spc g).groups.map Group.size = spc.groups.map Group.size ∧
    (∃ g2, (widomStep mc pins gidx i spc g).groups.get? gidx = some g2 ∧
      g2.first = g.first ∧ g2.capacity = g.capacity) ∧
    (∀ j, j < g.first ∨ g.first + (pins i).length ≤ j →
      (widomStep mc pins gidx i spc g).p.get? j = spc.p.get? j) := by
  have hwp : (widomWrite pins i spc g).p = writeAt spc.p g.first (pins i) := rfl
  have hwg : (widomWrite pins i spc g).groups = spc.groups := rfl
  unfold widomStep
  split
  · exact ⟨writeAt_length _ _ _, rfl, ⟨g, hg, rfl, rfl⟩,
      fun j hj => writeAt_get?_outside _ _ _ _ hj⟩
  · refine ⟨?_, ?_, ?_, ?_⟩
    · rw [Space.setGroupCm, modifyGroup_p, hwp]
      exact writeAt_length _ _ _
    · rw [Space.setGroupCm]
      refine (modifyGroup_map_size _ _ _ ?_).trans ?_
      · intro g1
        rfl
      · rw [hwg]
    · refine ⟨_, modifyGroup_get?_self _ _ _ g (by rw [hwg]; exact hg), rfl, rfl⟩
    · intro j hj
      rw [Space.setGroupCm, modifyGroup_p, hwp]
      exact writeAt_get?_outside _ _ _ _ hj

/-- The whole trial-insertion loop keeps the group sizes, the particle count,
the ghost group's window, and every particle outside the ghost window. -/
theorem widomGo_preserves (mc : List Particle → Point → Point) (pins : ℕ → List Particle)
    (gidx f c : ℕ) (hpin : ∀ i, (pins i).length ≤ c) :
    ∀ (n i : ℕ) (spc : Space) (g : Group),
      spc.groups.get? gidx = some g → g.first = f → g.capacity = c →
      (widomGo mc pins gidx n i spc).groups.map Group.size = spc.groups.map Group.size ∧
      (widomGo mc pins gidx n i spc).p.length = spc.p.length ∧
      (∃ g2, (widomGo mc pins gidx n i spc).groups.get? gidx = some g2 ∧
        g2.first = f ∧ g2.capacity = c) ∧
      (∀ j, j < f ∨ f + c ≤ j → (widomGo mc pins gidx n i spc).p.get? j = spc.p.get? j) := by
  intro n
  induction n with
  | zero =>
    intro i spc g hg hf hc
    exact ⟨rfl, rfl, ⟨g, hg, hf, hc⟩, fun j _ => rfl⟩
  | succ k ih =>
    intro i spc g hg hf hc
    simp only [widomGo]
    rw [hg]
    dsimp only
    by_cases hp : (pins i).isEmpty = true
    · rw [if_pos hp]
      exact ih (i + 1) spc g hg hf hc
    · rw [if_neg hp]
      obtain ⟨hsl, hsm, ⟨g2, hsg2, hg2f, hg2c⟩, hsout⟩ :=
        widomStep_facts mc pins gidx i spc g hg
      obtain ⟨hm, hl, hex, hout⟩ :=
        ih (i + 1) (widomStep mc pins gidx i spc g) g2 hsg2 (hg2f.trans hf) (hg2c.trans hc)
      refine ⟨hm.trans hsm, hl.trans hsl, hex, fun j hj => (hout j hj).trans ?_⟩
      apply hsout
      rcases hj with hj | hj
      · exact Or.inl (by omega)
      · right
        have := hpin i
        omega

/-- C10: `WidomInsertion::_sample` activates the inactive ghost group to full
capacity for the trial insertions and resizes it back to zero, so afterwards
the ghost group is inactive again, every group's size — and hence the number
of active particles — is unchanged, and only the ghost slots' particle data
may differ. -/
theorem widom_restores_ghost (mc : List Particle → Point → Point)
    (pins : ℕ → List Particle) (ninsert : ℕ) (change : Change) (spc : Space)
    (g : Group)
    (hg : spc.groups.get? (change.groups.getD 0 {}).index = some g)
    (hsize : g.size = 0)
    (hpin : ∀ i, (pins i).length ≤ g.capacity)
    (spc2 : Space)
    (hrun : WidomInsertion.sample mc pins ninsert change spc = .ok spc2) :
    spc2.groups.map Group.size = spc.groups.map Group.size ∧
    spc2.activeCount = spc.activeCount ∧
    (spc2.groups.map Group.size).get? (change.groups.getD 0 {}).index = some 0 ∧
    spc2.p.length = spc.p.length ∧
    (∀ j, j < g.first ∨ g.first + g.capacity ≤ j → spc2.p.get? j = spc.p.get? j) := by
  have hmap0 : (spc.groups.map Group.size).get? (change.groups.getD 0 {}).index = some 0 := by
    rw [List.get?_map, hg]
    simp [hsize]
  unfold WidomInsertion.sample at hrun
  by_cases hemp : change.isEmpty = true
  · rw [if_pos hemp] at hrun
    simp only [Except.ok.injEq] at hrun
    subst hrun
    exact ⟨rfl, rfl, hmap0, rfl, fun j _ => rfl⟩
  · rw [if_neg hemp, hg] at hrun
    simp only [Except.ok.injEq] at hrun
    have hA : (spc.setGroupSize (change.groups.getD 0 {}).index g.capacity).groups.get?
        (change.groups.getD 0 {}).index = some { g with size := g.capacity } :=
      modifyGroup_get?_self spc _ _ g hg
    have hAp : (spc.setGroupSize (change.groups.getD 0 {}).index g.capacity).p = spc.p :=
      setGroupSize_p ..
    have hAmap := setGroupSize_map_size spc (change.groups.getD 0 {}).index g.capacity g hg
    obtain ⟨hBmap, hBlen, ⟨g2, hBg2, hg2f, hg2c⟩, hBout⟩ :=
      widomGo_preserves mc pins (change.groups.getD 0 {}).index g.first g.capacity hpin
        ninsert 0 _ _ hA rfl rfl
    have hFp : spc2.p = (widomGo mc pins (change.groups.getD 0 {}).index ninsert 0
        (spc.setGroupSize (change.groups.getD 0 {}).index g.capacity)).p := by
      rw [← hrun, setGroupSize_p]
    have hFmap : spc2.groups.map Group.size = ((widomGo mc pins
        (change.groups.getD 0 {}).index ninsert 0
        (spc.setGroupSize (change.groups.getD 0 {}).index g.capacity)).groups.map
          Group.size).set (change.groups.getD 0 {}).index 0 := by
      rw [← hrun]
      exact setGroupSize_map_size _ _ 0 g2 hBg2
    have hmain : spc2.groups.map Group.size = spc.groups.map Group.size := by
      rw [hFmap, hBmap, hAmap, List.set_set]
      exact set_get?_self _ _ _ hmap0
    refine ⟨hmain, congrArg List.sum hmain, by rw [hmain]; exact hmap0,
      by rw [hFp, hBlen, hAp], fun j hj => ?_⟩
    rw [hFp, hBout j hj, hAp]

/-- C10 witness: a concrete two-insertion Widom sample on a molecular ghost
group over slots 2 and 3; sizes, active count and the first slots survive. -/
theorem widom_restores_ghost_witness :
    spcG2.groups.map Group.size = spcG.groups.map Group.size ∧
    spcG2.activeCount = spcG.activeCount ∧
    (spcG2.groups.map Group.size).get? (changeG.groups.getD 0 {}).index = some 0 ∧
    spcG2.p.length = spcG.p.length ∧
    spcG2.p.get? 0 = spcG.p.get? 0 := by
  have h := widom_restores_ghost mc0 pinsG 2 changeG spcG ghostG (by decide) (by decide)
    (fun _ => Nat.le_refl 2) spcG2 rfl
  exact ⟨h.1, h.2.1, h.2.2.1, h.2.2.2.1, h.2.2.2.2 0 (by decide)⟩

end Faunus
